import Mathlib

/-!
Shallow embedding of `src/asyncTutorial.ipynb`.

The notebook defines a configuration constant `N = 50`, a blocking
workload `def foo(a): time.sleep(0.2); return a**2` run sequentially by
the list comprehension `x = [foo(i) for i in tqdm(range(N))]`, and a
suspending workload `async def afoo(a): await asyncio.sleep(0.2);
return a**2` run concurrently by `do1`, which launches one task per
input and collects results with `asyncio.as_completed`, wrapped in
`tqdm(..., total=N)`.

Time is modelled as an idealized millisecond clock: `time.sleep(0.2)`
advances the clock by 200 ms while blocking the single execution
context; `asyncio.sleep(0.2)` marks a task ready 200 ms after launch,
and awaiting a task advances the clock only up to that readiness
instant.  `tqdm` is modelled as a completed-unit counter advanced by
one each time a unit finishes.  The scheduler-chosen completion order
of `as_completed` is an explicit parameter: a permutation of the task
list.
-/

namespace AsyncTutorial

/-- The delay of both `time.sleep(0.2)` and `asyncio.sleep(0.2)`, in
milliseconds. -/
def sleepMs : Nat := 200

/-- The configuration constant `N = 50` from the notebook. -/
def N : Int := 50

/-- Python `range(n)` for an arbitrary integer argument `n`: the empty
list when `n ≤ 0`, otherwise `[0, 1, …, n-1]`. -/
def pyRange (n : Int) : List Int :=
  if n ≤ 0 then [] else (List.range n.toNat).map Int.ofNat

/-- The value computed by `def foo(a): time.sleep(0.2); return a**2`:
exact arbitrary-precision squaring, as on Python integers. -/
def foo (a : Int) : Int := a ^ 2

/-- The value computed by `async def afoo(a): await asyncio.sleep(0.2);
return a**2`. -/
def afoo (a : Int) : Int := a ^ 2

/-- State of the sequential runner: the wall clock in milliseconds, the
results accumulated by the list comprehension in input order, and the
`tqdm` completed-unit counter. -/
structure SeqState where
  clock : Nat
  results : List Int
  done : Nat
  deriving Repr, DecidableEq

/-- The initial state of a run: clock at zero, no results, `tqdm`
counter at zero. -/
def SeqState.init : SeqState := ⟨0, [], 0⟩

/-- One iteration of `[foo(i) for i in tqdm(range(N))]` at input `a`:
`time.sleep(0.2)` blocks for 200 ms, `a**2` is appended to the results,
and `tqdm` advances by one completed unit. -/
def seqStep (s : SeqState) (a : Int) : SeqState :=
  ⟨s.clock + sleepMs, s.results ++ [foo a], s.done + 1⟩

/-- The sequential runner after completing the first `k` units of a run
over `range(n)`. -/
def seqAfter (n : Int) (k : Nat) : SeqState :=
  ((pyRange n).take k).foldl seqStep SeqState.init

/-- The full sequential run `x = [foo(i) for i in tqdm(range(N))]` over
`range(n)`. -/
def seqRun (n : Int) : SeqState :=
  (pyRange n).foldl seqStep SeqState.init

/-- State of the concurrent runner `do1`: wall clock in milliseconds,
results accumulated in completion order, and the `tqdm` counter. -/
structure ConcState where
  clock : Nat
  results : List Int
  done : Nat
  deriving Repr, DecidableEq

/-- The initial state of a concurrent run: all tasks are launched at
clock zero, each becoming ready `sleepMs` later. -/
def ConcState.init : ConcState := ⟨0, [], 0⟩

/-- Retiring the next-completed task for input `a` inside
`[await t for t in tqdm(asyncio.as_completed(tasks), total=N)]`:
`await t` suspends until the task's `asyncio.sleep(0.2)` has elapsed
(readiness instant `sleepMs` after the common launch), the value `a**2`
is appended in completion order, and `tqdm` advances by one. -/
def concStep (s : ConcState) (a : Int) : ConcState :=
  ⟨max s.clock sleepMs, s.results ++ [afoo a], s.done + 1⟩

/-- The concurrent runner `do1` over `range(n)`, with the
scheduler-chosen completion order given explicitly as the list `order`
of inputs in the order `asyncio.as_completed` retires their tasks; a
faithful schedule is a permutation of `pyRange n`. -/
def do1 (order : List Int) : ConcState :=
  order.foldl concStep ConcState.init

/-- The concurrent runner after the first `k` retirements of the
schedule `order`. -/
def concAfter (order : List Int) (k : Nat) : ConcState :=
  (order.take k).foldl concStep ConcState.init

/-- The `total` shown by `tqdm` for a run over `range(n)`: the number
of workload units. -/
def tqdmTotal (n : Int) : Nat := (pyRange n).length

/-! ### Basic foldl lemmas about the two runners -/

lemma seq_foldl_results (xs : List Int) (s : SeqState) :
    (xs.foldl seqStep s).results = s.results ++ xs.map foo := by
  induction xs generalizing s with
  | nil => simp
  | cons a as ih => simp [seqStep, ih, List.append_assoc]

lemma seq_foldl_clock (xs : List Int) (s : SeqState) :
    (xs.foldl seqStep s).clock = s.clock + xs.length * sleepMs := by
  induction xs generalizing s with
  | nil => simp
  | cons a as ih =>
    simp only [List.foldl_cons, ih, seqStep, List.length_cons]
    ring

lemma seq_foldl_done (xs : List Int) (s : SeqState) :
    (xs.foldl seqStep s).done = s.done + xs.length := by
  induction xs generalizing s with
  | nil => simp
  | cons a as ih =>
    simp only [List.foldl_cons, ih, seqStep, List.length_cons]
    omega

lemma conc_foldl_results (xs : List Int) (s : ConcState) :
    (xs.foldl concStep s).results = s.results ++ xs.map afoo := by
  induction xs generalizing s with
  | nil => simp
  | cons a as ih => simp [concStep, ih, List.append_assoc]

lemma conc_foldl_done (xs : List Int) (s : ConcState) :
    (xs.foldl concStep s).done = s.done + xs.length := by
  induction xs generalizing s with
  | nil => simp
  | cons a as ih =>
    simp only [List.foldl_cons, ih, concStep, List.length_cons]
    omega

lemma conc_foldl_clock (xs : List Int) (s : ConcState) (hxs : xs ≠ []) :
    (xs.foldl concStep s).clock = max s.clock sleepMs := by
  induction xs generalizing s with
  | nil => exact absurd rfl hxs
  | cons a as ih =>
    rcases as with _ | ⟨b, bs⟩
    · simp [concStep]
    · rw [List.foldl_cons, ih _ (by simp)]
      simp [concStep, max_assoc]

lemma pyRange_nonneg (n : Int) (h : 0 ≤ n) :
    pyRange n = (List.range n.toNat).map Int.ofNat := by
  rcases eq_or_lt_of_le h with h0 | h0
  · simp [pyRange, ← h0]
  · simp [pyRange, not_le.mpr h0]

lemma pyRange_length (n : Int) : (pyRange n).length = n.toNat := by
  by_cases h : n ≤ 0
  · simp [pyRange, h, Int.toNat_of_nonpos h]
  · simp [pyRange, h]

lemma seqRun_results (n : Int) :
    (seqRun n).results = (pyRange n).map foo := by
  simp [seqRun, seq_foldl_results, SeqState.init]

lemma do1_results (order : List Int) :
    (do1 order).results = order.map afoo := by
  simp [do1, conc_foldl_results, ConcState.init]

lemma seqRun_done (n : Int) : (seqRun n).done = n.toNat := by
  simp [seqRun, seq_foldl_done, SeqState.init, pyRange_length]

lemma do1_done (order : List Int) : (do1 order).done = order.length := by
  simp [do1, conc_foldl_done, ConcState.init]

lemma seqAfter_done (n : Int) (k : Nat) :
    (seqAfter n k).done = min k n.toNat := by
  simp [seqAfter, seq_foldl_done, SeqState.init, pyRange_length]

lemma concAfter_done (order : List Int) (k : Nat) :
    (concAfter order k).done = min k order.length := by
  simp [concAfter, conc_foldl_done, ConcState.init]

lemma pyRange_nodup (n : Int) : (pyRange n).Nodup := by
  by_cases h : n ≤ 0
  · simp [pyRange, h]
  · simp only [pyRange, h, if_false]
    exact List.Nodup.map (fun a b hab => Int.ofNat.inj hab) (List.nodup_range n.toNat)

/-! ### Claim theorems -/

/-- C1: for every N ≥ 0, the sequential runner produces a result
sequence of length N in input order, with result[i] = i*i at every
index i < N. -/
theorem seq_runner_ordered_squares (n : Int) (h : 0 ≤ n) :
    (seqRun n).results.length = n.toNat ∧
    ∀ i : Nat, i < n.toNat → (seqRun n).results.getD i 0 = (i : Int) * i := by
  refine ⟨by simp [seqRun_results, pyRange_length], fun i hi => ?_⟩
  rw [seqRun_results, pyRange_nonneg n h, List.map_map,
    List.getD_eq_getElem?_getD, List.getElem?_map, List.getElem?_range hi]
  simp [foo, pow_two]

/-- C1 witness: the sequential runner at N = 3 has three results and
result[2] = 4. -/
theorem seq_runner_ordered_squares_witness :
    (seqRun 3).results.length = (3 : Int).toNat ∧
    (seqRun 3).results.getD 2 0 = (2 : Int) * 2 :=
  ⟨(seq_runner_ordered_squares 3 (by decide)).1,
   (seq_runner_ordered_squares 3 (by decide)).2 2 (by decide)⟩

/-- C4: the blocking workload foo and the suspending workload afoo
compute the same value at every integer input. -/
theorem foo_afoo_same_value (a : Int) : foo a = afoo a := rfl

/-- C10: the squaring in both workloads is exact arbitrary-precision
integer arithmetic: at every non-negative input a, the value is
exactly a * a, with no modular wraparound. -/
theorem workload_square_exact (a : Int) (h : 0 ≤ a) :
    foo a = a * a ∧ afoo a = a * a :=
  ⟨pow_two a, pow_two a⟩

/-- C10 witness: at a = 2^40 the computed square is exactly 2^80, far
beyond any 64-bit range, with no wraparound. -/
theorem workload_square_exact_witness :
    (0 : Int) ≤ 2 ^ 40 ∧
    (foo (2 ^ 40) = 2 ^ 40 * 2 ^ 40 ∧ afoo (2 ^ 40) = 2 ^ 40 * 2 ^ 40) :=
  ⟨by norm_num, workload_square_exact (2 ^ 40) (by norm_num)⟩

/-- C5: at N = 0 both runners produce an empty result collection and
the progress indicator shows 0 completed of 0 total. -/
theorem zero_workload_empty (order : List Int) (h : order.Perm (pyRange 0)) :
    (seqRun 0).results = [] ∧ (seqRun 0).done = 0 ∧ tqdmTotal 0 = 0 ∧
    (do1 order).results = [] ∧ (do1 order).done = 0 := by
  have horder : order = [] := List.Perm.eq_nil (by simpa [pyRange] using h)
  subst horder
  refine ⟨?_, ?_, ?_, ?_, ?_⟩ <;> simp [seqRun_results, seqRun_done,
    tqdmTotal, do1_results, do1_done, pyRange]

/-- C5 witness: the empty schedule is a permutation of range(0), and
both runners report empty results and 0/0 progress. -/
theorem zero_workload_empty_witness :
    (seqRun 0).results = [] ∧ (seqRun 0).done = 0 ∧ tqdmTotal 0 = 0 ∧
    (do1 []).results = [] ∧ (do1 []).done = 0 :=
  zero_workload_empty [] (by simp [pyRange])

/-- C9: at every negative workload count n < 0 the input range is
empty, so both runners produce an empty result collection and execute
no workload unit, rather than failing. -/
theorem negative_count_empty (n : Int) (hn : n < 0) (order : List Int)
    (h : order.Perm (pyRange n)) :
    pyRange n = [] ∧ (seqRun n).results = [] ∧ (seqRun n).done = 0 ∧
    (do1 order).results = [] ∧ (do1 order).done = 0 := by
  have hr : pyRange n = [] := by simp [pyRange, le_of_lt hn]
  have horder : order = [] := List.Perm.eq_nil (by simpa [hr] using h)
  subst horder
  refine ⟨hr, ?_, ?_, ?_, ?_⟩
  · simp [seqRun_results, hr]
  · simp [seqRun_done, Int.toNat_of_nonpos (le_of_lt hn)]
  · simp [do1_results]
  · simp [do1_done]

/-- C9 witness: at n = -1 the range is empty and both runners produce
empty results. -/
theorem negative_count_empty_witness :
    pyRange (-1) = [] ∧ (seqRun (-1)).results = [] ∧
    (seqRun (-1)).done = 0 ∧ (do1 []).results = [] ∧ (do1 []).done = 0 :=
  negative_count_empty (-1) (by decide) [] (by simp [pyRange])

/-- C2: for every N ≥ 0 and every completion order, the concurrent
runner's result collection, viewed as a multiset, equals
{a*a : a in range(N)}, and the iteration over next-completed tasks
yields each input unit exactly once. -/
theorem conc_runner_multiset (n : Int) (order : List Int)
    (h : order.Perm (pyRange n)) :
    ((do1 order).results : Multiset Int)
      = (((pyRange n).map (fun a => a * a) : List Int) : Multiset Int) ∧
    ∀ a ∈ pyRange n, order.count a = 1 := by
  constructor
  · rw [do1_results]
    refine Multiset.coe_eq_coe.mpr ?_
    have hfun : afoo = fun a => a * a := funext fun a => pow_two a
    rw [hfun]
    exact h.map _
  · intro a ha
    rw [h.count_eq]
    exact List.count_eq_one_of_mem (pyRange_nodup n) ha

/-- C2 witness: at N = 3 with the out-of-input-order schedule
[2, 0, 1], the result multiset equals the multiset of squares of
range(3) and each input is retired exactly once. -/
theorem conc_runner_multiset_witness :
    (((do1 [2, 0, 1]).results : Multiset Int)
      = (((pyRange 3).map (fun a => a * a) : List Int) : Multiset Int)) ∧
    ∀ a ∈ pyRange 3, List.count a [(2 : Int), 0, 1] = 1 :=
  conc_runner_multiset 3 [2, 0, 1] (by decide)

/-- C3: in the idealized delay-accounting model, the sequential run at
N = 50 takes 50 × 200 ms = 10000 ms ≈ 10 s, while the concurrent run
takes 200 ms, inside the 200–300 ms window, a more than 30-fold
speedup. -/
theorem timing_contrast (order : List Int) (h : order.Perm (pyRange N)) :
    (seqRun N).clock = 10000 ∧ (do1 order).clock = 200 ∧
    200 ≤ (do1 order).clock ∧ (do1 order).clock ≤ 300 ∧
    30 * (do1 order).clock < (seqRun N).clock := by
  have hseq : (seqRun N).clock = 10000 := by
    rw [seqRun, seq_foldl_clock, pyRange_length]
    rfl
  have hne : order ≠ [] := by
    intro he
    have hl := h.length_eq
    rw [he, pyRange_length] at hl
    exact absurd hl.symm (by decide)
  have hconc : (do1 order).clock = 200 := by
    rw [do1, conc_foldl_clock order ConcState.init hne]
    rfl
  exact ⟨hseq, hconc, by omega, by omega, by omega⟩

/-- C3 witness: with the input-order schedule over range(50), the
sequential clock reads 10000 ms and the concurrent clock 200 ms. -/
theorem timing_contrast_witness :
    (seqRun N).clock = 10000 ∧ (do1 (pyRange N)).clock = 200 ∧
    200 ≤ (do1 (pyRange N)).clock ∧ (do1 (pyRange N)).clock ≤ 300 ∧
    30 * (do1 (pyRange N)).clock < (seqRun N).clock :=
  timing_contrast (pyRange N) (List.Perm.refl _)

/-- C6: for both runners the tqdm counter equals the number of
completed units after every prefix of the run, advances by exactly one
per completion, is monotone, and at the end of the run reads exactly
the total N. -/
theorem progress_counter_exact (n : Int) (order : List Int)
    (h : order.Perm (pyRange n)) :
    (∀ k, k ≤ n.toNat → (seqAfter n k).done = k) ∧
    (∀ k, k < n.toNat → (seqAfter n (k + 1)).done = (seqAfter n k).done + 1) ∧
    (∀ j k, j ≤ k → (seqAfter n j).done ≤ (seqAfter n k).done) ∧
    (seqRun n).done = n.toNat ∧
    (∀ k, k ≤ n.toNat → (concAfter order k).done = k) ∧
    (∀ k, k < n.toNat → (concAfter order (k + 1)).done = (concAfter order k).done + 1) ∧
    (∀ j k, j ≤ k → (concAfter order j).done ≤ (concAfter order k).done) ∧
    (do1 order).done = n.toNat ∧ tqdmTotal n = n.toNat := by
  have hol : order.length = n.toNat := by rw [h.length_eq, pyRange_length]
  refine ⟨fun k hk => ?_, fun k hk => ?_, fun j k hjk => ?_, seqRun_done n,
    fun k hk => ?_, fun k hk => ?_, fun j k hjk => ?_, ?_, ?_⟩
  · rw [seqAfter_done]; omega
  · rw [seqAfter_done, seqAfter_done]; omega
  · rw [seqAfter_done, seqAfter_done]; omega
  · rw [concAfter_done, hol]; omega
  · rw [concAfter_done, concAfter_done, hol]; omega
  · rw [concAfter_done, concAfter_done]; omega
  · rw [do1_done, hol]
  · show (pyRange n).length = n.toNat
    exact pyRange_length n

/-- C6 witness: at N = 2 with schedule [1, 0], the tqdm counter reads
1 after the first completion, advances by one at the second, and both
runs end at 2 of 2. -/
theorem progress_counter_exact_witness :
    ((seqAfter 2 1).done = 1 ∧ (seqRun 2).done = (2 : Int).toNat) ∧
    ((concAfter [1, 0] 2).done = (concAfter [1, 0] 1).done + 1 ∧
      (do1 [1, 0]).done = (2 : Int).toNat ∧ tqdmTotal 2 = (2 : Int).toNat) :=
  ⟨⟨(progress_counter_exact 2 [1, 0] (by decide)).1 1 (by decide),
    (progress_counter_exact 2 [1, 0] (by decide)).2.2.2.1⟩,
   ⟨(progress_counter_exact 2 [1, 0] (by decide)).2.2.2.2.2.1 1 (by decide),
    (progress_counter_exact 2 [1, 0] (by decide)).2.2.2.2.2.2.2.1,
    (progress_counter_exact 2 [1, 0] (by decide)).2.2.2.2.2.2.2.2⟩⟩

/-- C7: re-running either runner with the same workload count yields
the same result multiset: the sequential run is a fixed sequence, and
any two concurrent schedules over the same range give equal result
multisets. -/
theorem rerun_same_multiset (n : Int) (o₁ o₂ : List Int)
    (h₁ : o₁.Perm (pyRange n)) (h₂ : o₂.Perm (pyRange n)) :
    ((seqRun n).results : Multiset Int) = ((seqRun n).results : Multiset Int) ∧
    ((do1 o₁).results : Multiset Int) = ((do1 o₂).results : Multiset Int) := by
  refine ⟨rfl, ?_⟩
  rw [do1_results, do1_results]
  exact Multiset.coe_eq_coe.mpr ((h₁.trans h₂.symm).map afoo)

/-- C7 witness: at N = 2, the schedules [0, 1] and [1, 0] produce the
same result multiset. -/
theorem rerun_same_multiset_witness :
    ((seqRun 2).results : Multiset Int) = ((seqRun 2).results : Multiset Int) ∧
    ((do1 [0, 1]).results : Multiset Int) = ((do1 [1, 0]).results : Multiset Int) :=
  rerun_same_multiset 2 [0, 1] [1, 0] (by decide) (by decide)

/-- C8: the input range of both runners is the ordered sequence of
integers from 0 inclusive to N exclusive with N fixed at 50: it has 50
entries, entry i is i, the sequential runner maps the blocking workload
over it in that order, and the concurrent runner retires exactly the
tasks built from it. -/
theorem input_range_fixed (order : List Int) (h : order.Perm (pyRange N)) :
    N = 50 ∧ (pyRange N).length = 50 ∧
    (∀ i : Nat, i < 50 → (pyRange N).getD i 0 = i) ∧
    (seqRun N).results = (pyRange N).map foo ∧
    (do1 order).results = order.map afoo ∧ order.Perm (pyRange N) :=
  ⟨rfl, by decide, by decide, seqRun_results N, do1_results order, h⟩

/-- C8 witness: the input-order schedule realizes the concurrent run
over the fixed range of 50 inputs. -/
theorem input_range_fixed_witness :
    N = 50 ∧ (pyRange N).length = 50 ∧
    (∀ i : Nat, i < 50 → (pyRange N).getD i 0 = i) ∧
    (seqRun N).results = (pyRange N).map foo ∧
    (do1 (pyRange N)).results = (pyRange N).map afoo ∧
    (pyRange N).Perm (pyRange N) :=
  input_range_fixed (pyRange N) (List.Perm.refl _)

end AsyncTutorial
